import Mathlib

/-! Verification development for the firefaith register virtual machine
(`src/instruction.rs`, `src/vm.rs`): a shallow embedding of the opcode
table and the execution engine, and theorems about the fetch-decode-execute
cycle.

Modelling conventions:
* Program bytes (`u8`) are `Nat` values; where the source widens bytes into
  `u16` the byte range appears as an explicit `% 256` and the `u16` result
  type as `% 65536`.
* `i32` registers are `Int`, with two's-complement wrapping made explicit
  (`wrap32`) for `+`, `-`, `*`, matching the release-mode host semantics the
  spec fixes as reference behavior; `usize` (the program counter) is `Nat`
  with 64-bit wrapping made explicit (`usizeAdd`, `usizeSub`, `usizeOfInt`).
* Operations that unconditionally panic in the source — out-of-bounds
  indexing of the program buffer or the register file, division by zero and
  `i32` division overflow (`i32::MIN / -1`, which Rust traps in every build
  profile) — are modelled as `none`. -/

namespace Firefaith

/-- The opcode enumeration of `src/instruction.rs`. -/
inductive Opcode where
  | HLT
  | LOAD
  | ADD
  | SUB
  | MUL
  | DIV
  | MOV
  | JMP
  | JMPB
  | JMPF
  | IGL
deriving DecidableEq

/-- Decode one byte into an opcode (`impl From<u8> for Opcode`): bytes 0-9
map to the ten opcodes in declared order, every other byte to `IGL`. -/
def Opcode.ofByte (v : Nat) : Opcode :=
  match v with
  | 0 => .HLT
  | 1 => .LOAD
  | 2 => .ADD
  | 3 => .SUB
  | 4 => .MUL
  | 5 => .DIV
  | 6 => .MOV
  | 7 => .JMP
  | 8 => .JMPB
  | 9 => .JMPF
  | _ => .IGL

/-- Two's-complement wrap of an unbounded integer into `i32` range: the
release-mode behavior of Rust `i32` addition, subtraction and
multiplication. -/
def wrap32 (v : Int) : Int := (v + 2 ^ 31) % 2 ^ 32 - 2 ^ 31

/-- Reinterpretation of an `i32` value as `u32` (`as u32`). -/
def u32ofInt (v : Int) : Nat := (v % 2 ^ 32).toNat

/-- Cast of an `i32` value to `usize` (`as usize`, 64-bit host). -/
def usizeOfInt (v : Int) : Nat := (v % 2 ^ 64).toNat

/-- Wrapping `usize` addition (64-bit host). -/
def usizeAdd (a b : Nat) : Nat := (a + b) % 2 ^ 64

/-- Wrapping `usize` subtraction (64-bit host). -/
def usizeSub (a b : Nat) : Nat := (((a : Int) - (b : Int)) % 2 ^ 64).toNat

/-- The execution engine state of `src/vm.rs`: the register file (32 signed
32-bit integers), the program counter, the growable program byte buffer and
the remainder register. -/
structure VM where
  registers : List Int
  pc : Nat
  program : List Nat
  remainder : Nat
deriving DecidableEq

/-- `VM::new`: 32 zeroed registers, `pc = 0`, empty program, zero
remainder. -/
def VM.new : VM :=
  { registers := List.replicate 32 0, pc := 0, program := [], remainder := 0 }

/-- `VM::add_byte`: push one byte at the end of the program buffer. -/
def VM.add_byte (vm : VM) (b : Nat) : VM :=
  { vm with program := vm.program ++ [b] }

/-- A fresh VM with a whole program fed byte by byte through `add_byte`. -/
def VM.initWith (p : List Nat) : VM := p.foldl VM.add_byte VM.new

/-- `VM::decode_opcode`: decode the byte at `pc` and advance `pc` by one;
`none` models the panic of an out-of-bounds index. -/
def VM.decode_opcode (vm : VM) : Option (Opcode × VM) :=
  match vm.program.get? vm.pc with
  | some b => some (Opcode.ofByte b, { vm with pc := vm.pc + 1 })
  | none => none

/-- `VM::next_byte`: the byte at `pc`, advancing `pc` by one; `none` models
the panic of an out-of-bounds index. -/
def VM.next_byte (vm : VM) : Option (Nat × VM) :=
  match vm.program.get? vm.pc with
  | some b => some (b, { vm with pc := vm.pc + 1 })
  | none => none

/-- `VM::next_short`: the big-endian byte pair at `pc`, advancing `pc` by
two. The source computes `((b1 as u16) << 8) | b2 as u16` on `u8`
operands, which is `b1 * 256 + b2`; the `% 256` spell out the operands'
`u8` range and the `% 65536` the `u16` result type. -/
def VM.next_short (vm : VM) : Option (Nat × VM) :=
  match vm.program.get? vm.pc, vm.program.get? (vm.pc + 1) with
  | some b1, some b2 =>
      some (((b1 % 256) * 256 + b2 % 256) % 65536, { vm with pc := vm.pc + 2 })
  | _, _ => none

/-- Read register `i` (`self.registers[i]`); `none` models the panic of an
out-of-range index. -/
def VM.readReg (vm : VM) (i : Nat) : Option Int := vm.registers.get? i

/-- Write register `i` (`self.registers[i] = v`); `none` models the panic
of an out-of-range index. -/
def VM.writeReg (vm : VM) (i : Nat) (v : Int) : Option VM :=
  if i < vm.registers.length then
    some { vm with registers := vm.registers.set i v }
  else
    none

/-- `VM::execute_instruction` (the spec's `Step()`): check the PC bound,
decode one opcode, consume its operand bytes and apply its effect. The
`Bool` is the source's return value: `false` for the PC guard, `HLT` and
`IGL`, `true` after every other instruction. `none` models a panic. -/
def VM.execute_instruction (vm : VM) : Option (VM × Bool) :=
  if vm.program.length ≤ vm.pc then
    some (vm, false)
  else
    match vm.decode_opcode with
    | none => none
    | some (op, vm1) =>
      match op with
      | .LOAD =>
        match vm1.next_byte with
        | none => none
        | some (register, vm2) =>
          match vm2.next_short with
          | none => none
          | some (number, vm3) =>
            match vm3.writeReg register ((number : Nat) : Int) with
            | none => none
            | some vm4 => some (vm4, true)
      | .HLT => some (vm1, false)
      | .ADD =>
        match vm1.next_byte with
        | none => none
        | some (i1, vm2) =>
          match vm2.readReg i1 with
          | none => none
          | some reg1 =>
            match vm2.next_byte with
            | none => none
            | some (i2, vm3) =>
              match vm3.readReg i2 with
              | none => none
              | some reg2 =>
                match vm3.next_byte with
                | none => none
                | some (i3, vm4) =>
                  match vm4.writeReg i3 (wrap32 (reg1 + reg2)) with
                  | none => none
                  | some vm5 => some (vm5, true)
      | .SUB =>
        match vm1.next_byte with
        | none => none
        | some (i1, vm2) =>
          match vm2.readReg i1 with
          | none => none
          | some reg1 =>
            match vm2.next_byte with
            | none => none
            | some (i2, vm3) =>
              match vm3.readReg i2 with
              | none => none
              | some reg2 =>
                match vm3.next_byte with
                | none => none
                | some (i3, vm4) =>
                  match vm4.writeReg i3 (wrap32 (reg1 - reg2)) with
                  | none => none
                  | some vm5 => some (vm5, true)
      | .MUL =>
        match vm1.next_byte with
        | none => none
        | some (i1, vm2) =>
          match vm2.readReg i1 with
          | none => none
          | some reg1 =>
            match vm2.next_byte with
            | none => none
            | some (i2, vm3) =>
              match vm3.readReg i2 with
              | none => none
              | some reg2 =>
                match vm3.next_byte with
                | none => none
                | some (i3, vm4) =>
                  match vm4.writeReg i3 (wrap32 (reg1 * reg2)) with
                  | none => none
                  | some vm5 => some (vm5, true)
      | .DIV =>
        match vm1.next_byte with
        | none => none
        | some (i1, vm2) =>
          match vm2.readReg i1 with
          | none => none
          | some reg1 =>
            match vm2.next_byte with
            | none => none
            | some (i2, vm3) =>
              match vm3.readReg i2 with
              | none => none
              | some reg2 =>
                match vm3.next_byte with
                | none => none
                | some (i3, vm4) =>
                  if reg2 = 0 ∨ (reg1 = -(2 ^ 31) ∧ reg2 = -1) then
                    none
                  else
                    match vm4.writeReg i3 (Int.tdiv reg1 reg2) with
                    | none => none
                    | some vm5 =>
                      some ({ vm5 with
                        remainder := u32ofInt (Int.tmod reg1 reg2) }, true)
      | .MOV =>
        match vm1.next_byte with
        | none => none
        | some (d, vm2) =>
          match vm2.next_byte with
          | none => none
          | some (s, vm3) =>
            match vm3.readReg s with
            | none => none
            | some v =>
              match vm3.writeReg d v with
              | none => none
              | some vm4 => some (vm4, true)
      | .JMP =>
        match vm1.next_byte with
        | none => none
        | some (i, vm2) =>
          match vm2.readReg i with
          | none => none
          | some target => some ({ vm2 with pc := usizeOfInt target }, true)
      | .JMPB =>
        match vm1.next_byte with
        | none => none
        | some (i, vm2) =>
          match vm2.readReg i with
          | none => none
          | some value =>
            some ({ vm2 with pc := usizeSub vm2.pc (usizeOfInt value) }, true)
      | .JMPF =>
        match vm1.next_byte with
        | none => none
        | some (i, vm2) =>
          match vm2.readReg i with
          | none => none
          | some value =>
            some ({ vm2 with pc := usizeAdd vm2.pc (usizeOfInt value) }, true)
      | .IGL => some (vm1, false)

/-- `VM::run`, the loop `while !is_done { is_done = self.execute_instruction(); }`,
observed for at most `fuel` iterations: `some` is the state at which the
loop exits within the bound, `none` means the loop has not exited within
`fuel` iterations (or an instruction panicked). Note the loop body runs
again exactly while `execute_instruction` returned `false`. -/
def VM.run : Nat → VM → Option VM
  | 0, _ => none
  | n + 1, vm =>
    match vm.execute_instruction with
    | none => none
    | some (vm', is_done) =>
      match is_done with
      | true => some vm'
      | false => VM.run n vm'

/-- Zero or more `execute_instruction` calls, whatever the returned flag. -/
inductive VM.Steps : VM → VM → Prop where
  | refl (vm : VM) : VM.Steps vm vm
  | tail {vm vm' vm'' : VM} {b : Bool} :
      VM.Steps vm vm' → vm'.execute_instruction = some (vm'', b) →
      VM.Steps vm vm''

/-- An engine state is reachable when feeding some program byte by byte
into a fresh VM and stepping reaches it. -/
def VM.Reachable (v : VM) : Prop :=
  ∃ p : List Nat, VM.Steps (VM.initWith p) v

/-- The PC guard: with `pc` at or past the end of the program buffer,
`execute_instruction` returns the stop signal and changes nothing. -/
lemma execute_instruction_past_end (vm : VM) (h : vm.program.length ≤ vm.pc) :
    vm.execute_instruction = some (vm, false) := by
  unfold VM.execute_instruction
  rw [if_pos h]

/-- A VM whose `pc` is stuck at or past the end never exits the run loop. -/
lemma run_of_past_end (fuel : Nat) (vm : VM) (h : vm.program.length ≤ vm.pc) :
    VM.run fuel vm = none := by
  induction fuel with
  | zero => rfl
  | succ n ih =>
    simp only [VM.run, execute_instruction_past_end vm h]
    exact ih

/-- A successful `decode_opcode` certifies the opcode fetch was in
bounds. -/
lemma VM.decode_opcode_spec {vm vm' : VM} {o : Opcode}
    (h : vm.decode_opcode = some (o, vm')) : vm.pc < vm.program.length := by
  revert h
  unfold VM.decode_opcode
  cases hg : vm.program.get? vm.pc with
  | none => intro h; exact Option.noConfusion h
  | some b =>
    intro h
    obtain ⟨hlt, -⟩ := List.get?_eq_some.mp hg
    exact hlt

/-- A successful `next_byte` read was in bounds, read the byte at `pc` and
only advanced `pc` by one. -/
lemma VM.next_byte_spec {vm vm' : VM} {b : Nat}
    (h : vm.next_byte = some (b, vm')) :
    vm.pc < vm.program.length ∧ vm.program.get? vm.pc = some b ∧
      vm' = { vm with pc := vm.pc + 1 } := by
  revert h
  unfold VM.next_byte
  cases hg : vm.program.get? vm.pc with
  | none => intro h; exact Option.noConfusion h
  | some x =>
    intro h
    have h' := Option.some.inj h
    injection h' with h1 h2
    subst h1
    obtain ⟨hlt, -⟩ := List.get?_eq_some.mp hg
    exact ⟨hlt, rfl, h2.symm⟩

/-- A successful `next_short` read was in bounds (both bytes) and only
advanced `pc` by two. -/
lemma VM.next_short_spec {vm vm' : VM} {s : Nat}
    (h : vm.next_short = some (s, vm')) :
    vm.pc + 1 < vm.program.length ∧ vm' = { vm with pc := vm.pc + 2 } := by
  revert h
  unfold VM.next_short
  cases hg1 : vm.program.get? vm.pc with
  | none => intro h; exact Option.noConfusion h
  | some b1 =>
    cases hg2 : vm.program.get? (vm.pc + 1) with
    | none => intro h; exact Option.noConfusion h
    | some b2 =>
      intro h
      have h' := Option.some.inj h
      injection h' with h1 h2
      obtain ⟨hlt, -⟩ := List.get?_eq_some.mp hg2
      exact ⟨hlt, h2.symm⟩

/-- A successful register write was in range and only replaced the target
register. -/
lemma VM.writeReg_spec {vm vm' : VM} {i : Nat} {v : Int}
    (h : vm.writeReg i v = some vm') :
    i < vm.registers.length ∧
      vm' = { vm with registers := vm.registers.set i v } := by
  revert h
  unfold VM.writeReg
  by_cases hlt : i < vm.registers.length
  · rw [if_pos hlt]
    intro h
    exact ⟨hlt, (Option.some.inj h).symm⟩
  · rw [if_neg hlt]
    intro h
    exact Option.noConfusion h

/-- C1 (code evaluated at the failing input): on the two-instruction
program `LOAD $0 500; LOAD $1 500`, the run loop already exits after the
first instruction, because `execute_instruction` returned `true` and
`while !is_done` stops on `true`: the final `pc` is 4 and register 1 was
never written, contrary to "repeatedly invokes Step() until it returns
false, executing every instruction that returns true along the way". -/
theorem run_stops_after_first_successful_instruction :
    (VM.run 8 (VM.initWith [1, 0, 1, 244, 1, 1, 0, 244])).map VM.pc =
      some 4 ∧
    (VM.run 8 (VM.initWith [1, 0, 1, 244, 1, 1, 0, 244])).bind
      (fun v => v.registers.get? 0) = some 500 ∧
    (VM.run 8 (VM.initWith [1, 0, 1, 244, 1, 1, 0, 244])).bind
      (fun v => v.registers.get? 1) = some 0 := by
  exact ⟨by decide, by decide, by decide⟩

/-- C2 (code evaluated at the failing input): on the program consisting of
the single `HALT` instruction, the run loop never exits, for any bound on
the number of iterations: `execute_instruction` returns `false` at `HLT`,
`while !is_done` therefore loops again, and from then on the PC guard keeps
returning `false` forever. The claim says `Run()` terminates with PC one
past the `HALT` opcode. -/
theorem run_on_halt_program_never_terminates (fuel : Nat) :
    VM.run fuel (VM.initWith [0]) = none := by
  cases fuel with
  | zero => rfl
  | succ n =>
    have hstep : (VM.initWith [0]).execute_instruction =
        some ({ registers := List.replicate 32 0, pc := 1, program := [0],
                remainder := 0 }, false) := by decide
    simp only [VM.run, hstep]
    exact run_of_past_end n _ (by decide)

/-- C3, counterexample: a reachable engine state whose PC exceeds the
program buffer length, so `0 <= PC <= len` does not hold of every reachable
state before a fetch. The program `LOAD $0 10; JMPF $0` (6 bytes) leaves
`pc = 16`. -/
def c3Prog : List Nat := [1, 0, 0, 10, 9, 0]

/-- The state after the `LOAD` of `c3Prog`. -/
def c3Mid : VM :=
  { registers := (List.replicate 32 (0 : Int)).set 0 10, pc := 4,
    program := c3Prog, remainder := 0 }

/-- The state after the `JMPF` of `c3Prog`: `pc = 16` in a 6-byte buffer. -/
def c3Final : VM :=
  { registers := (List.replicate 32 (0 : Int)).set 0 10, pc := 16,
    program := c3Prog, remainder := 0 }

/-- C3 fails as stated: `c3Final` is reachable and its PC exceeds the
program length. -/
theorem reachable_pc_can_exceed_length :
    VM.Reachable c3Final ∧ c3Final.program.length < c3Final.pc := by
  have e1 : (VM.initWith c3Prog).execute_instruction = some (c3Mid, true) := by
    decide
  have e2 : c3Mid.execute_instruction = some (c3Final, true) := by decide
  exact ⟨⟨c3Prog, VM.Steps.tail (VM.Steps.tail (VM.Steps.refl _) e1) e2⟩,
    by decide⟩

/-- C3, amended: the engine checks `PC < len` before each decode and stops
when the bound fails, and every byte read that completes (opcode fetch via
`decode_opcode`, operand reads via `next_byte`/`next_short`) accessed only
indices below the buffer length; but PC ≤ len is not an invariant of
reachable states (jumps may set PC past the end), and an out-of-bounds
operand read is a fault (`none`), not a checked stop. -/
theorem pc_guard_and_completed_reads_in_bounds (vm : VM) :
    (vm.program.length ≤ vm.pc → vm.execute_instruction = some (vm, false)) ∧
    (∀ o v', vm.decode_opcode = some (o, v') → vm.pc < vm.program.length) ∧
    (∀ b v', vm.next_byte = some (b, v') → vm.pc < vm.program.length) ∧
    (∀ s v', vm.next_short = some (s, v') →
      vm.pc + 1 < vm.program.length) := by
  refine ⟨fun h => execute_instruction_past_end vm h, ?_, ?_, ?_⟩
  · intro o v' h
    exact VM.decode_opcode_spec h
  · intro b v' h
    exact (VM.next_byte_spec h).1
  · intro s v' h
    exact (VM.next_short_spec h).1

/-- C3 witness: the guard fires on an empty program, and a completed
`next_byte` read on the two-byte program `[7, 0]` was in bounds. -/
theorem pc_guard_and_reads_witness :
    (VM.initWith []).execute_instruction = some (VM.initWith [], false) ∧
    (VM.initWith [7, 0]).pc < (VM.initWith [7, 0]).program.length := by
  constructor
  · exact (pc_guard_and_completed_reads_in_bounds (VM.initWith [])).1
      (by decide)
  · exact (pc_guard_and_completed_reads_in_bounds (VM.initWith [7, 0])).2.2.1 7
      { VM.initWith [7, 0] with pc := 1 } (by decide)

/-- C4, forward case: `[JUMP_FORWARD, r0]` with `Registers[0] = 10`, PC
starting at 0. -/
def c4Fwd : VM :=
  { registers := (List.replicate 32 (0 : Int)).set 0 10, pc := 0,
    program := [9, 0], remainder := 0 }

/-- C4, backward case: a 16-byte buffer with `JUMP_BACK r0` at offset 12
and `Registers[0] = 10`, stepping from PC = 12. -/
def c4Back : VM :=
  { registers := (List.replicate 32 (0 : Int)).set 0 10, pc := 12,
    program := [0, 0, 0, 0, 0, 0, 0, 0, 0, 0, 0, 0, 8, 0, 0, 0],
    remainder := 0 }

/-- C4: jump displacements are relative to the PC after the jump's own two
bytes: one step on `c4Fwd` leaves `pc = 12` (2 consumed + 10 forward), one
step on `c4Back` leaves `pc = 4` (2 consumed + 10 back from offset 14); the
assigned PC is the step's final PC, not further adjusted. -/
theorem jump_displacements_relative_to_pc_after_operands :
    c4Fwd.execute_instruction = some ({ c4Fwd with pc := 12 }, true) ∧
    c4Back.execute_instruction = some ({ c4Back with pc := 4 }, true) := by
  exact ⟨by decide, by decide⟩

/-- C5, counterexample: `DIV` with `Registers[src1] = -2^31` and
`Registers[src2] = -1` — a nonzero divisor — does not set the destination
register: Rust traps the `i32` division overflow (modelled as `none`), so
the claim's conclusion fails at this input. -/
def c5Bad : VM :=
  { registers := ((List.replicate 32 (0 : Int)).set 0 (-(2 ^ 31))).set 1 (-1),
    pc := 0, program := [5, 0, 1, 2], remainder := 0 }

/-- C5 fails as stated: on `c5Bad` the divisor is `-1 ≠ 0`, yet the `DIV`
instruction faults instead of writing quotient and remainder. -/
theorem div_min_by_neg_one_faults :
    c5Bad.execute_instruction = none ∧
    c5Bad.registers.get? 1 = some (-1) ∧ ((-1 : Int) ≠ 0) := by
  exact ⟨by decide, by decide, by decide⟩

/-- C5, amended: executing `DIV` with in-range register operands, a nonzero
divisor and excluding the single `i32` overflow pair
`(dividend, divisor) = (-2^31, -1)` sets the destination register to the
quotient truncated toward zero (`Int.tdiv`) and the remainder register to
the remainder with the sign of the dividend (`Int.tmod`), reinterpreted as
the unsigned 32-bit value the remainder register stores. -/
theorem div_sets_quotient_and_remainder (vm : VM) (s1 s2 d : Nat) (a b : Int)
    (hop : vm.program.get? vm.pc = some 5)
    (h1 : vm.program.get? (vm.pc + 1) = some s1)
    (h2 : vm.program.get? (vm.pc + 2) = some s2)
    (h3 : vm.program.get? (vm.pc + 3) = some d)
    (ha : vm.registers.get? s1 = some a)
    (hb : vm.registers.get? s2 = some b)
    (hbz : b ≠ 0)
    (hov : ¬(a = -(2 ^ 31) ∧ b = -1))
    (hd : d < vm.registers.length) :
    vm.execute_instruction =
      some ({ vm with
                pc := vm.pc + 4,
                registers := vm.registers.set d (Int.tdiv a b),
                remainder := u32ofInt (Int.tmod a b) }, true) := by
  obtain ⟨hlt, -⟩ := List.get?_eq_some.mp hop
  have e2 : vm.pc + 1 + 1 = vm.pc + 2 := by omega
  have e3 : vm.pc + 1 + 1 + 1 = vm.pc + 3 := by omega
  have e4 : vm.pc + 1 + 1 + 1 + 1 = vm.pc + 4 := by omega
  have hguard : ¬(b = 0 ∨ (a = -(2 ^ 31) ∧ b = -1)) := by
    rintro (hz | hov2)
    · exact hbz hz
    · exact hov hov2
  unfold VM.execute_instruction VM.decode_opcode
  rw [if_neg (not_le.mpr hlt)]
  simp only [hop]
  simp only [show Opcode.ofByte 5 = Opcode.DIV from rfl]
  simp only [VM.next_byte, VM.readReg, VM.writeReg]
  simp only [e2, e3, e4, h1, h2, h3, ha, hb]
  rw [if_neg hguard, if_pos hd]

/-- C5 witness: the spec's two concrete divisions with `Registers[0] = 10`,
`Registers[1] = 20`: `DIV r1 r0 r2` gives quotient 2 and remainder 0,
`DIV r0 r1 r2` gives quotient 0 and remainder 10. -/
def c5A : VM :=
  { registers := ((List.replicate 32 (0 : Int)).set 0 10).set 1 20, pc := 0,
    program := [5, 1, 0, 2], remainder := 0 }

/-- The second spec division, `DIV r0 r1 r2`. -/
def c5B : VM :=
  { registers := ((List.replicate 32 (0 : Int)).set 0 10).set 1 20, pc := 0,
    program := [5, 0, 1, 2], remainder := 0 }

/-- C5 witness theorem: both of the spec's division examples, by the
amended theorem. -/
theorem div_spec_examples :
    ((c5A.execute_instruction).bind (fun p => p.1.registers.get? 2) =
      some 2) ∧
    ((c5A.execute_instruction).map (fun p => p.1.remainder) = some 0) ∧
    ((c5B.execute_instruction).bind (fun p => p.1.registers.get? 2) =
      some 0) ∧
    ((c5B.execute_instruction).map (fun p => p.1.remainder) = some 10) := by
  have hA := div_sets_quotient_and_remainder c5A 1 0 2 20 10 (by decide)
    (by decide) (by decide) (by decide) (by decide) (by decide) (by decide)
    (by decide) (by decide)
  have hB := div_sets_quotient_and_remainder c5B 0 1 2 10 20 (by decide)
    (by decide) (by decide) (by decide) (by decide) (by decide) (by decide)
    (by decide) (by decide)
  rw [hA, hB]
  exact ⟨by decide, by decide, by decide, by decide⟩

/-- C6: decoding is a total deterministic function of the byte: the same
byte always decodes the same way, bytes 0-9 decode to the ten opcodes in
declared order, and every byte from 10 up decodes to `IGL`. -/
theorem decode_total_and_matches_declared_order :
    (∀ b : Nat, Opcode.ofByte b = Opcode.ofByte b) ∧
    (List.range 10).map Opcode.ofByte =
      [Opcode.HLT, Opcode.LOAD, Opcode.ADD, Opcode.SUB, Opcode.MUL,
       Opcode.DIV, Opcode.MOV, Opcode.JMP, Opcode.JMPB, Opcode.JMPF] ∧
    (∀ b : Nat, 10 ≤ b → Opcode.ofByte b = Opcode.IGL) := by
  refine ⟨fun _ => rfl, by decide, ?_⟩
  intro b hb
  have hsub : b - 10 + 10 = b := by omega
  rw [← hsub]
  rfl

/-- C7: `Step()` with PC at or past the end of the program buffer returns
the stop signal without mutating any register or the remainder. -/
theorem step_past_end_preserves_registers_and_remainder (vm : VM)
    (h : vm.program.length ≤ vm.pc) :
    (vm.execute_instruction).map
        (fun r => (r.1.registers, r.1.remainder, r.2)) =
      some (vm.registers, vm.remainder, false) := by
  rw [execute_instruction_past_end vm h]
  rfl

/-- C7 witness input: a fresh VM whose `pc` was moved past its empty
buffer. -/
def c7Vm : VM := { VM.new with pc := 5 }

/-- C7 witness: the guard preserves registers and remainder on `c7Vm`. -/
theorem step_past_end_registers_witness :
    ((c7Vm.execute_instruction).map
        (fun r => (r.1.registers, r.1.remainder, r.2)) =
      some (c7Vm.registers, c7Vm.remainder, false)) :=
  step_past_end_preserves_registers_and_remainder c7Vm (by decide)

/-- C8: LOAD round-trip. With the program holding `LOAD r (v >> 8) (v & 255)`
at `pc`, an in-range register index and a 16-bit immediate, stepping once
succeeds and reading register `r` afterwards returns exactly `v` (its
signed 32-bit reinterpretation, the identity on 16-bit values). -/
theorem load_round_trip (vm : VM) (r v : Nat)
    (hlen : vm.registers.length = 32) (hr : r < 32) (hv : v < 65536)
    (hop : vm.program.get? vm.pc = some 1)
    (h1 : vm.program.get? (vm.pc + 1) = some r)
    (h2 : vm.program.get? (vm.pc + 2) = some (v / 256))
    (h3 : vm.program.get? (vm.pc + 3) = some (v % 256)) :
    (vm.execute_instruction).bind (fun p => p.1.registers.get? r) =
        some ((v : Nat) : Int) ∧
      (vm.execute_instruction).map (fun p => p.2) = some true := by
  obtain ⟨hlt, -⟩ := List.get?_eq_some.mp hop
  have e2 : vm.pc + 1 + 1 = vm.pc + 2 := by omega
  have e3 : vm.pc + 1 + 1 + 1 = vm.pc + 3 := by omega
  have hshort : (v / 256 % 256) * 256 + v % 256 % 256 = v := by omega
  have hmod : ((v / 256 % 256) * 256 + v % 256 % 256) % 65536 = v := by omega
  have hexec : vm.execute_instruction =
      some ({ vm with
                pc := vm.pc + 2 + 2,
                registers := vm.registers.set r ((v : Nat) : Int) }, true) := by
    unfold VM.execute_instruction VM.decode_opcode
    rw [if_neg (not_le.mpr hlt)]
    simp only [hop]
    simp only [show Opcode.ofByte 1 = Opcode.LOAD from rfl]
    simp only [VM.next_byte, VM.next_short, VM.writeReg]
    simp only [e2, e3, h1, h2, h3, hmod]
    rw [if_pos (by rw [hlen]; exact hr)]
  rw [hexec]
  constructor
  · show (vm.registers.set r ((v : Nat) : Int)).get? r = some ((v : Nat) : Int)
    exact List.get?_set_eq_of_lt _ (by rw [hlen]; exact hr)
  · rfl

/-- C8 witness input: the test program `LOAD $0 500`. -/
def c8Vm : VM := VM.initWith [1, 0, 1, 244]

/-- C8 witness: loading the immediate 500 into register 0 and reading it
back returns 500. -/
theorem load_round_trip_witness :
    ((c8Vm.execute_instruction).bind (fun p => p.1.registers.get? 0) =
        some ((500 : Nat) : Int)) ∧
      (c8Vm.execute_instruction).map (fun p => p.2) = some true :=
  load_round_trip c8Vm 0 500 (by decide) (by decide) (by decide) (by decide)
    (by decide) (by decide) (by decide)

/-- C9: the remainder register is zero-initialized and only the `DIV` arm
ever writes it: any successful `execute_instruction` whose fetched opcode
is not `DIV` leaves the remainder unchanged (including the PC-guard stop,
where nothing is fetched). -/
theorem remainder_zero_init_and_div_only :
    VM.new.remainder = 0 ∧
    ∀ (vm vm' : VM) (c : Bool), vm.execute_instruction = some (vm', c) →
      (∀ b, vm.program.get? vm.pc = some b →
        Opcode.ofByte b ≠ Opcode.DIV) →
      vm'.remainder = vm.remainder := by
  refine ⟨rfl, ?_⟩
  intro vm vm' c h hnd
  unfold VM.execute_instruction at h
  by_cases hpc : vm.program.length ≤ vm.pc
  · rw [if_pos hpc] at h
    have h' := Option.some.inj h
    injection h' with h1 h2
    rw [← h1]
  · rw [if_neg hpc] at h
    unfold VM.decode_opcode at h
    cases hg : vm.program.get? vm.pc with
    | none => rw [hg] at h; exact Option.noConfusion h
    | some b =>
      simp only [hg] at h
      cases hb : Opcode.ofByte b with
      | DIV => exact absurd hb (hnd b hg)
      | HLT =>
        simp only [hb] at h
        have h' := Option.some.inj h
        injection h' with h1 h2
        rw [← h1]
      | IGL =>
        simp only [hb] at h
        have h' := Option.some.inj h
        injection h' with h1 h2
        rw [← h1]
      | LOAD =>
        simp only [hb] at h
        cases hx1 : VM.next_byte { vm with pc := vm.pc + 1 } with
        | none => rw [hx1] at h; exact Option.noConfusion h
        | some q1 =>
          obtain ⟨reg, vm2⟩ := q1
          simp only [hx1] at h
          cases hx2 : vm2.next_short with
          | none => rw [hx2] at h; exact Option.noConfusion h
          | some q2 =>
            obtain ⟨num, vm3⟩ := q2
            simp only [hx2] at h
            cases hx3 : vm3.writeReg reg ((num : Nat) : Int) with
            | none => rw [hx3] at h; exact Option.noConfusion h
            | some vm4 =>
              simp only [hx3] at h
              have h' := Option.some.inj h
              injection h' with h1 h2
              obtain ⟨-, -, rfl⟩ := VM.next_byte_spec hx1
              obtain ⟨-, rfl⟩ := VM.next_short_spec hx2
              obtain ⟨-, rfl⟩ := VM.writeReg_spec hx3
              rw [← h1]
      | ADD =>
        simp only [hb] at h
        cases hx1 : VM.next_byte { vm with pc := vm.pc + 1 } with
        | none => rw [hx1] at h; exact Option.noConfusion h
        | some q1 =>
          obtain ⟨i1, vm2⟩ := q1
          simp only [hx1] at h
          cases hr1 : vm2.readReg i1 with
          | none => rw [hr1] at h; exact Option.noConfusion h
          | some reg1 =>
            simp only [hr1] at h
            cases hx2 : vm2.next_byte with
            | none => rw [hx2] at h; exact Option.noConfusion h
            | some q2 =>
              obtain ⟨i2, vm3⟩ := q2
              simp only [hx2] at h
              cases hr2 : vm3.readReg i2 with
              | none => rw [hr2] at h; exact Option.noConfusion h
              | some reg2 =>
                simp only [hr2] at h
                cases hx3 : vm3.next_byte with
                | none => rw [hx3] at h; exact Option.noConfusion h
                | some q3 =>
                  obtain ⟨i3, vm4⟩ := q3
                  simp only [hx3] at h
                  cases hw : vm4.writeReg i3 (wrap32 (reg1 + reg2)) with
                  | none => rw [hw] at h; exact Option.noConfusion h
                  | some vm5 =>
                    simp only [hw] at h
                    have h' := Option.some.inj h
                    injection h' with h1 h2
                    obtain ⟨-, -, rfl⟩ := VM.next_byte_spec hx1
                    obtain ⟨-, -, rfl⟩ := VM.next_byte_spec hx2
                    obtain ⟨-, -, rfl⟩ := VM.next_byte_spec hx3
                    obtain ⟨-, rfl⟩ := VM.writeReg_spec hw
                    rw [← h1]
      | SUB =>
        simp only [hb] at h
        cases hx1 : VM.next_byte { vm with pc := vm.pc + 1 } with
        | none => rw [hx1] at h; exact Option.noConfusion h
        | some q1 =>
          obtain ⟨i1, vm2⟩ := q1
          simp only [hx1] at h
          cases hr1 : vm2.readReg i1 with
          | none => rw [hr1] at h; exact Option.noConfusion h
          | some reg1 =>
            simp only [hr1] at h
            cases hx2 : vm2.next_byte with
            | none => rw [hx2] at h; exact Option.noConfusion h
            | some q2 =>
              obtain ⟨i2, vm3⟩ := q2
              simp only [hx2] at h
              cases hr2 : vm3.readReg i2 with
              | none => rw [hr2] at h; exact Option.noConfusion h
              | some reg2 =>
                simp only [hr2] at h
                cases hx3 : vm3.next_byte with
                | none => rw [hx3] at h; exact Option.noConfusion h
                | some q3 =>
                  obtain ⟨i3, vm4⟩ := q3
                  simp only [hx3] at h
                  cases hw : vm4.writeReg i3 (wrap32 (reg1 - reg2)) with
                  | none => rw [hw] at h; exact Option.noConfusion h
                  | some vm5 =>
                    simp only [hw] at h
                    have h' := Option.some.inj h
                    injection h' with h1 h2
                    obtain ⟨-, -, rfl⟩ := VM.next_byte_spec hx1
                    obtain ⟨-, -, rfl⟩ := VM.next_byte_spec hx2
                    obtain ⟨-, -, rfl⟩ := VM.next_byte_spec hx3
                    obtain ⟨-, rfl⟩ := VM.writeReg_spec hw
                    rw [← h1]
      | MUL =>
        simp only [hb] at h
        cases hx1 : VM.next_byte { vm with pc := vm.pc + 1 } with
        | none => rw [hx1] at h; exact Option.noConfusion h
        | some q1 =>
          obtain ⟨i1, vm2⟩ := q1
          simp only [hx1] at h
          cases hr1 : vm2.readReg i1 with
          | none => rw [hr1] at h; exact Option.noConfusion h
          | some reg1 =>
            simp only [hr1] at h
            cases hx2 : vm2.next_byte with
            | none => rw [hx2] at h; exact Option.noConfusion h
            | some q2 =>
              obtain ⟨i2, vm3⟩ := q2
              simp only [hx2] at h
              cases hr2 : vm3.readReg i2 with
              | none => rw [hr2] at h; exact Option.noConfusion h
              | some reg2 =>
                simp only [hr2] at h
                cases hx3 : vm3.next_byte with
                | none => rw [hx3] at h; exact Option.noConfusion h
                | some q3 =>
                  obtain ⟨i3, vm4⟩ := q3
                  simp only [hx3] at h
                  cases hw : vm4.writeReg i3 (wrap32 (reg1 * reg2)) with
                  | none => rw [hw] at h; exact Option.noConfusion h
                  | some vm5 =>
                    simp only [hw] at h
                    have h' := Option.some.inj h
                    injection h' with h1 h2
                    obtain ⟨-, -, rfl⟩ := VM.next_byte_spec hx1
                    obtain ⟨-, -, rfl⟩ := VM.next_byte_spec hx2
                    obtain ⟨-, -, rfl⟩ := VM.next_byte_spec hx3
                    obtain ⟨-, rfl⟩ := VM.writeReg_spec hw
                    rw [← h1]
      | MOV =>
        simp only [hb] at h
        cases hx1 : VM.next_byte { vm with pc := vm.pc + 1 } with
        | none => rw [hx1] at h; exact Option.noConfusion h
        | some q1 =>
          obtain ⟨d, vm2⟩ := q1
          simp only [hx1] at h
          cases hx2 : vm2.next_byte with
          | none => rw [hx2] at h; exact Option.noConfusion h
          | some q2 =>
            obtain ⟨s, vm3⟩ := q2
            simp only [hx2] at h
            cases hr : vm3.readReg s with
            | none => rw [hr] at h; exact Option.noConfusion h
            | some v =>
              simp only [hr] at h
              cases hw : vm3.writeReg d v with
              | none => rw [hw] at h; exact Option.noConfusion h
              | some vm4 =>
                simp only [hw] at h
                have h' := Option.some.inj h
                injection h' with h1 h2
                obtain ⟨-, -, rfl⟩ := VM.next_byte_spec hx1
                obtain ⟨-, -, rfl⟩ := VM.next_byte_spec hx2
                obtain ⟨-, rfl⟩ := VM.writeReg_spec hw
                rw [← h1]
      | JMP =>
        simp only [hb] at h
        cases hx1 : VM.next_byte { vm with pc := vm.pc + 1 } with
        | none => rw [hx1] at h; exact Option.noConfusion h
        | some q1 =>
          obtain ⟨i, vm2⟩ := q1
          simp only [hx1] at h
          cases hr : vm2.readReg i with
          | none => rw [hr] at h; exact Option.noConfusion h
          | some target =>
            simp only [hr] at h
            have h' := Option.some.inj h
            injection h' with h1 h2
            obtain ⟨-, -, rfl⟩ := VM.next_byte_spec hx1
            rw [← h1]
      | JMPB =>
        simp only [hb] at h
        cases hx1 : VM.next_byte { vm with pc := vm.pc + 1 } with
        | none => rw [hx1] at h; exact Option.noConfusion h
        | some q1 =>
          obtain ⟨i, vm2⟩ := q1
          simp only [hx1] at h
          cases hr : vm2.readReg i with
          | none => rw [hr] at h; exact Option.noConfusion h
          | some value =>
            simp only [hr] at h
            have h' := Option.some.inj h
            injection h' with h1 h2
            obtain ⟨-, -, rfl⟩ := VM.next_byte_spec hx1
            rw [← h1]
      | JMPF =>
        simp only [hb] at h
        cases hx1 : VM.next_byte { vm with pc := vm.pc + 1 } with
        | none => rw [hx1] at h; exact Option.noConfusion h
        | some q1 =>
          obtain ⟨i, vm2⟩ := q1
          simp only [hx1] at h
          cases hr : vm2.readReg i with
          | none => rw [hr] at h; exact Option.noConfusion h
          | some value =>
            simp only [hr] at h
            have h' := Option.some.inj h
            injection h' with h1 h2
            obtain ⟨-, -, rfl⟩ := VM.next_byte_spec hx1
            rw [← h1]

/-- C10: `Step()` invoked with PC at or past the end of the program buffer
is a complete no-op apart from returning the stop signal: the whole engine
state, PC and program buffer included, is returned unchanged. -/
theorem step_past_end_complete_noop (vm : VM)
    (h : vm.program.length ≤ vm.pc) :
    vm.execute_instruction = some (vm, false) :=
  execute_instruction_past_end vm h

/-- C10 witness input: a VM whose `pc` sits past its three-byte buffer. -/
def c10Vm : VM := { VM.new with pc := 7, program := [2, 0, 1] }

/-- C10 witness: the out-of-bounds step on `c10Vm` returns the state
itself with the stop signal. -/
theorem step_past_end_noop_witness :
    c10Vm.execute_instruction = some (c10Vm, false) :=
  step_past_end_complete_noop c10Vm (by decide)

end Firefaith
